import Mathlib

/-!
# Verification of the bn256 EdDSA package (crypto/signature/eddsa/bn256/eddsa.go)

Shallow embedding of the EdDSA signature scheme over a twisted Edwards
curve.  The curve arithmetic (field elements, point addition, scalar
multiplication, on-curve predicate, curve parameters) and the fixed
64-byte seed-expansion hash (blake2b) are external capabilities of the
package; they are embedded as parameters: a `CurveOps` record and a
function of type `List Nat → List Nat`.  Bytes are modelled as `Nat`
(the source manipulates `byte` values; all masking is explicit).

Every definition follows the Go source line by line; the byte-level
layout of buffers uses `List.take` / `List.drop` mirroring the Go slice
expressions.
-/

set_option autoImplicit false
set_option maxRecDepth 8000

namespace Eddsa

/-- `frSize` from the source: the fixed 32-byte field/scalar element size. -/
def frSize : Nat := 32

/-- `sizePublicKey = 2 * frSize`. -/
def sizePublicKey : Nat := 2 * frSize

/-- `sizeSignature = 3 * frSize`. -/
def sizeSignature : Nat := 3 * frSize

/-- `sizePrivateKey = 4 * frSize`. -/
def sizePrivateKey : Nat := 4 * frSize

/-- The error values of the package: `io.ErrShortBuffer` and `errNotOnCurve`. -/
inductive EddsaError where
  | shortBuffer
  | notOnCurve
deriving DecidableEq

/-- An affine point of the twisted Edwards curve: coordinates `X`, `Y`
(mirrors `twistededwards.PointAffine`). -/
@[ext]
structure Point (F : Type) where
  X : F
  Y : F
deriving DecidableEq

/-- The curve capability consumed by the package (spec section 6):
base point, group order, cofactor, point addition, scalar multiplication
by an arbitrary-precision integer, on-curve predicate, and the big-endian
byte codec of field elements (`Element.SetBytes` / `Element.Bytes`). -/
structure CurveOps (F : Type) where
  base : Point F
  order : Nat
  cofactor : Nat
  padd : Point F → Point F → Point F
  psmul : Nat → Point F → Point F
  isOnCurve : Point F → Bool
  fromBytes : List Nat → F
  toBytes : F → List Nat

/-- `PublicKey` : a curve point `A`. -/
structure PublicKey (F : Type) where
  A : Point F
deriving DecidableEq

/-- `Signature` : commitment point `R` and 32-byte big-endian scalar `S`. -/
structure Signature (F : Type) where
  R : Point F
  S : List Nat
deriving DecidableEq

/-- `PrivateKey` : copy of the public key, 32-byte big-endian secret
scalar, and the 32-byte nonce-derivation seed `randSrc`. -/
structure PrivateKey (F : Type) where
  pubKey : PublicKey F
  scalar : List Nat
  randSrc : List Nat
deriving DecidableEq

/-- `big.Int.SetBytes` : interpret a byte string as a big-endian natural. -/
def beNat (l : List Nat) : Nat :=
  l.foldl (fun a b => a * 256 + b) 0

/-- Structural worker for `natToBytesBE`; the fuel bounds the number of
digits (any fuel at least the value itself is enough). -/
def natToBytesBEAux : Nat → Nat → List Nat
  | 0, _ => []
  | fuel + 1, n => if n = 0 then [] else natToBytesBEAux fuel (n / 256) ++ [n % 256]

/-- `big.Int.Bytes` : minimal big-endian byte string of a natural
(the empty string for 0). -/
def natToBytesBE (n : Nat) : List Nat := natToBytesBEAux n n

/-- `PublicKey.SetBytes` : decode `x||y`, big-endian, into the receiver.
Returns the updated receiver, the byte count `n` and the error, exactly
as the Go method leaves them. -/
def PublicKey.SetBytes {F : Type} (C : CurveOps F) (pk : PublicKey F)
    (buf : List Nat) : PublicKey F × Nat × Option EddsaError :=
  if buf.length < sizePublicKey then (pk, 0, some .shortBuffer)
  else
    let x := C.fromBytes (buf.take frSize)
    let y := C.fromBytes ((buf.drop frSize).take frSize)
    let pk1 : PublicKey F := ⟨⟨x, y⟩⟩
    if C.isOnCurve pk1.A then (pk1, 2 * frSize, none)
    else (pk1, 2 * frSize, some .notOnCurve)

/-- `PublicKey.Bytes` : `x||y`, each coordinate as its fixed-width
big-endian encoding. -/
def PublicKey.Bytes {F : Type} (C : CurveOps F) (pk : PublicKey F) : List Nat :=
  C.toBytes pk.A.X ++ C.toBytes pk.A.Y

/-- `Signature.SetBytes` : decode `x||y||s`; the scalar bytes are copied
only after the on-curve check of `R` succeeds. -/
def Signature.SetBytes {F : Type} (C : CurveOps F) (sig : Signature F)
    (buf : List Nat) : Signature F × Nat × Option EddsaError :=
  if buf.length < sizeSignature then (sig, 0, some .shortBuffer)
  else
    let x := C.fromBytes (buf.take frSize)
    let y := C.fromBytes ((buf.drop frSize).take frSize)
    let sig1 : Signature F := { sig with R := ⟨x, y⟩ }
    if C.isOnCurve sig1.R then
      ({ sig1 with S := (buf.drop (2 * frSize)).take frSize }, 3 * frSize, none)
    else (sig1, 2 * frSize, some .notOnCurve)

/-- `Signature.Bytes` : `x||y||s`. -/
def Signature.Bytes {F : Type} (C : CurveOps F) (sig : Signature F) : List Nat :=
  C.toBytes sig.R.X ++ C.toBytes sig.R.Y ++ sig.S

/-- `PrivateKey.SetBytes` : decode `publicKey||scalar||randSrc`; the
scalar and `randSrc` bytes are copied only after the on-curve check of
the public point succeeds, and the returned count is incremented by
`frSize` only once for them. -/
def PrivateKey.SetBytes {F : Type} (C : CurveOps F) (priv : PrivateKey F)
    (buf : List Nat) : PrivateKey F × Nat × Option EddsaError :=
  if buf.length < sizePrivateKey then (priv, 0, some .shortBuffer)
  else
    let x := C.fromBytes (buf.take frSize)
    let y := C.fromBytes ((buf.drop frSize).take frSize)
    let p1 : PrivateKey F := { priv with pubKey := ⟨⟨x, y⟩⟩ }
    if C.isOnCurve p1.pubKey.A then
      ({ p1 with
          scalar := (buf.drop (2 * frSize)).take frSize
          randSrc := (buf.drop (3 * frSize)).take frSize },
        3 * frSize, none)
    else (p1, 2 * frSize, some .notOnCurve)

/-- `PrivateKey.Bytes` : `publicKey||scalar||randSrc`. -/
def PrivateKey.Bytes {F : Type} (C : CurveOps F) (priv : PrivateKey F) : List Nat :=
  C.toBytes priv.pubKey.A.X ++ C.toBytes priv.pubKey.A.Y ++
    priv.scalar ++ priv.randSrc

/-- The key-pruning step of `New` (RFC 8032 clamping of the first 32
digest bytes, in the digest's little-endian order):
`h[0] &= 0xF8; h[31] &= 0x7F; h[31] |= 0x40`. -/
def prune (h : List Nat) : List Nat :=
  let h1 := h.set 0 (Nat.land (h.getD 0 0) 0xF8)
  let h2 := h1.set 31 (Nat.land (h1.getD 31 0) 0x7F)
  h2.set 31 (Nat.lor (h2.getD 31 0) 0x40)

/-- `New` : derive a key pair from a seed.  `blake` is the external
64-byte seed-expansion hash (`blake2b.Sum512`).
The reversal loop of the source is `for i, j := 0, 32; i < j; i, j = i+1, j-1`,
whose net effect is to reverse the 33 entries `h[0] .. h[32]` inclusive
(j starts at 32, not 31), leaving `h[33..]` unchanged. -/
def New {F : Type} (C : CurveOps F) (blake : List Nat → List Nat)
    (seed : List Nat) : PublicKey F × PrivateKey F :=
  let h := blake seed
  let randSrc := (h.drop 32).take 32
  let h1 := prune h
  let h2 := (h1.take 33).reverse ++ h1.drop 33
  let scalar := h2.take 32
  let bscalar := beNat scalar
  let pub : PublicKey F := ⟨C.psmul bscalar C.base⟩
  (pub, { pubKey := pub, scalar := scalar, randSrc := randSrc })

/-- The challenge-hash input `R.X||R.Y||A.X||A.Y||message` built
identically by `Sign` and `Verify`. -/
def challengeData {F : Type} (C : CurveOps F) (R A : Point F)
    (message : List Nat) : List Nat :=
  C.toBytes R.X ++ C.toBytes R.Y ++ C.toBytes A.X ++ C.toBytes A.Y ++ message

/-- `Sign` : deterministic nonce `r = beNat (blake (randSrc||msg))[0..32]`,
commitment `R = r * Base`, challenge `H` from the pluggable hash, and
response `S = (H * scalar + r) mod Order`, left-padded to `frSize` bytes
and copied into the fixed-width `res.S` (`List.take frSize` mirrors the
bounded `copy`).  `hFunc` is the pluggable hash, modelled as the digest
of everything written since the `Reset`. -/
def Sign {F : Type} (C : CurveOps F) (blake : List Nat → List Nat)
    (hFunc : List Nat → List Nat) (message : List Nat)
    (priv : PrivateKey F) : Except EddsaError (Signature F) :=
  let randSrc := priv.randSrc ++ message
  let randBytes := blake randSrc
  let randScalarInt := beNat (randBytes.take 32)
  let R := C.psmul randScalarInt C.base
  if C.isOnCurve R then
    let hramInt := beNat (hFunc (challengeData C R priv.pubKey.A message))
    let bscalar := beNat priv.scalar
    let bs := (hramInt * bscalar + randScalarInt) % C.order
    let sb := natToBytesBE bs
    let sb1 := if sb.length < frSize
      then List.replicate (frSize - sb.length) 0 ++ sb else sb
    Except.ok { R := R, S := sb1.take frSize }
  else Except.error .notOnCurve

/-- `Verify` : recompute the challenge and compare
`cofactor * (S * Base)` against `cofactor * (H * A + R)`
coordinate-wise.  Returns the `(bool, error)` pair of the Go function. -/
def Verify {F : Type} [DecidableEq F] (C : CurveOps F)
    (hFunc : List Nat → List Nat) (sig : Signature F) (message : List Nat)
    (pub : PublicKey F) : Bool × Option EddsaError :=
  if C.isOnCurve pub.A then
    let hramInt := beNat (hFunc (challengeData C sig.R pub.A message))
    let bs := beNat sig.S
    let lhs := C.psmul C.cofactor (C.psmul bs C.base)
    if C.isOnCurve lhs then
      let rhs := C.psmul C.cofactor (C.padd (C.psmul hramInt pub.A) sig.R)
      if C.isOnCurve rhs then
        if lhs.X = rhs.X ∧ lhs.Y = rhs.Y then (true, none)
        else (false, none)
      else (false, some .notOnCurve)
    else (false, some .notOnCurve)
  else (false, some .notOnCurve)

/-- The left-hand side of the verification equation as the source
computes it: `cofactor * (S * Base)`. -/
def verifyLhs {F : Type} (C : CurveOps F) (sig : Signature F) : Point F :=
  C.psmul C.cofactor (C.psmul (beNat sig.S) C.base)

/-- The right-hand side of the verification equation as the source
computes it: `cofactor * (H(R,A,M) * A + R)`. -/
def verifyRhs {F : Type} (C : CurveOps F) (hFunc : List Nat → List Nat)
    (sig : Signature F) (message : List Nat) (pub : PublicKey F) : Point F :=
  C.psmul C.cofactor
    (C.padd (C.psmul (beNat (hFunc (challengeData C sig.R pub.A message))) pub.A) sig.R)

/-- The secret scalar as the specification describes it: the byte-order
reversal of the clamped FIRST 32 bytes of the seed digest
(`scalar[i] = clamped-digest[31-i]`). -/
def specScalar (digest : List Nat) : List Nat :=
  ((prune digest).take 32).reverse

/-! ## A small concrete curve capability, used to instantiate the
abstract theorems.  Points are pairs over `ZMod 5`; the scalar action is
multiplication of the coordinates by the scalar mod 5, so the base point
`(1, 0)` generates a cyclic group of order 5 on which all the group laws
assumed of the external curve library hold and are decidable. -/

def zOps : CurveOps (ZMod 5) where
  base := { X := 1, Y := 0 }
  order := 5
  cofactor := 4
  padd p q := { X := p.X + q.X, Y := p.Y + q.Y }
  psmul n p := { X := (n : ZMod 5) * p.X, Y := (n : ZMod 5) * p.Y }
  isOnCurve _ := true
  fromBytes l := (beNat l : ZMod 5)
  toBytes x := List.replicate 31 0 ++ [x.val]

/-- A variant whose on-curve predicate rejects some points, to exercise
the `NotOnCurve` decoding paths. -/
def wOps : CurveOps (ZMod 5) :=
  { zOps with isOnCurve := fun p => decide (p.Y = 1) }

/-- A stand-in for the external 64-byte seed-expansion digest. -/
def zblake : List Nat → List Nat := fun _ => List.range 64

/-- A stand-in pluggable hash: digest is the written length. -/
def zhash : List Nat → List Nat := fun l => [l.length]

/-- A concrete 32-byte seed. -/
def zseed : List Nat := List.replicate 32 0

/-- The signature `Sign` produces under `zOps`/`zblake`/`zhash` for any
one-byte message. -/
def zsig : Signature (ZMod 5) :=
  { R := { X := 1, Y := 0 }, S := List.replicate 31 0 ++ [4] }

/-! ## Helper lemmas on the byte codec -/

theorem beNat_append_singleton (l : List Nat) (b : Nat) :
    beNat (l ++ [b]) = beNat l * 256 + b := by
  unfold beNat
  rw [List.foldl_append]
  rfl

theorem beNat_replicate_zero_append (k : Nat) (l : List Nat) :
    beNat (List.replicate k 0 ++ l) = beNat l := by
  induction k with
  | zero => rfl
  | succ k ih =>
    rw [List.replicate_succ, List.cons_append]
    show beNat (List.replicate k 0 ++ l) = beNat l
    exact ih

theorem natToBytesBEAux_congr (f1 : Nat) :
    ∀ (f2 n : Nat), n ≤ f1 → n ≤ f2 →
      natToBytesBEAux f1 n = natToBytesBEAux f2 n := by
  induction f1 with
  | zero =>
    intro f2 n h1 _
    have h0 : n = 0 := Nat.le_zero.mp h1
    cases f2 <;> simp [natToBytesBEAux, h0]
  | succ f ih =>
    intro f2 n h1 h2
    cases f2 with
    | zero =>
      have h0 : n = 0 := Nat.le_zero.mp h2
      simp [natToBytesBEAux, h0]
    | succ g =>
      by_cases h0 : n = 0
      · simp [natToBytesBEAux, h0]
      · have hlt : n / 256 < n := Nat.div_lt_self (Nat.pos_of_ne_zero h0) (by decide)
        simp only [natToBytesBEAux, h0, if_false]
        rw [ih g (n / 256) (by omega) (by omega)]

/-- The recursive unfolding of `natToBytesBE`. -/
theorem natToBytesBE_eq (n : Nat) :
    natToBytesBE n = if n = 0 then [] else natToBytesBE (n / 256) ++ [n % 256] := by
  unfold natToBytesBE
  cases n with
  | zero => rfl
  | succ m =>
    simp only [natToBytesBEAux, Nat.succ_ne_zero, if_false]
    rw [natToBytesBEAux_congr m ((m + 1) / 256) ((m + 1) / 256)
      (by omega : (m + 1) / 256 ≤ m) (Nat.le_refl _)]

theorem beNat_natToBytesBE (n : Nat) : beNat (natToBytesBE n) = n := by
  induction n using Nat.strong_induction_on with
  | _ n ih =>
    rw [natToBytesBE_eq]
    split
    · simp [beNat]; omega
    · rename_i h
      rw [beNat_append_singleton,
        ih (n / 256) (Nat.div_lt_self (Nat.pos_of_ne_zero h) (by decide))]
      omega

theorem natToBytesBE_length_le (k : Nat) (n : Nat) (h : n < 256 ^ k) :
    (natToBytesBE n).length ≤ k := by
  induction k generalizing n with
  | zero =>
    have h0 : n = 0 := by simpa using h
    rw [natToBytesBE_eq]
    simp [h0]
  | succ k ih =>
    rw [natToBytesBE_eq]
    split
    · simp
    · rename_i h0
      rw [List.length_append]
      have hdiv : n / 256 < 256 ^ k := by
        rw [Nat.div_lt_iff_lt_mul (by decide)]
        calc n < 256 ^ (k + 1) := h
        _ = 256 ^ k * 256 := by rw [pow_succ]
      have := ih (n / 256) hdiv
      simp only [List.length_singleton]
      omega

/-- The fixed-width response bytes of `Sign` are exactly the left-padded
minimal encoding, provided the value fits in `frSize` bytes. -/
theorem padTake_eq (v : Nat) (h : (natToBytesBE v).length ≤ frSize) :
    (if (natToBytesBE v).length < frSize
      then List.replicate (frSize - (natToBytesBE v).length) 0 ++ natToBytesBE v
      else natToBytesBE v).take frSize
    = List.replicate (frSize - (natToBytesBE v).length) 0 ++ natToBytesBE v := by
  split
  · exact List.take_of_length_le
      (by rw [List.length_append, List.length_replicate]; omega)
  · have he : frSize - (natToBytesBE v).length = 0 := by omega
    rw [he, List.replicate_zero, List.nil_append]
    exact List.take_of_length_le h

/-- Reading back the fixed-width response bytes of `Sign` recovers the
response value, provided it fits in `frSize` bytes. -/
theorem beNat_padTake (v : Nat) (h : (natToBytesBE v).length ≤ frSize) :
    beNat ((if (natToBytesBE v).length < frSize
      then List.replicate (frSize - (natToBytesBE v).length) 0 ++ natToBytesBE v
      else natToBytesBE v).take frSize) = v := by
  rw [padTake_eq v h, beNat_replicate_zero_append, beNat_natToBytesBE]

theorem natToBytesBE_length_le_frSize (v : Nat) (h : v < 256 ^ frSize) :
    (natToBytesBE v).length ≤ frSize :=
  natToBytesBE_length_le frSize v h

/-! ## Group laws of the concrete instance `zOps` -/

theorem zOps_mul (m n : Nat) :
    zOps.psmul m (zOps.psmul n zOps.base) = zOps.psmul (m * n) zOps.base := by
  simp only [zOps, Point.mk.injEq]
  constructor <;> push_cast <;> ring

theorem zOps_add (m n : Nat) :
    zOps.padd (zOps.psmul m zOps.base) (zOps.psmul n zOps.base)
      = zOps.psmul (m + n) zOps.base := by
  simp only [zOps, Point.mk.injEq]
  constructor <;> push_cast <;> ring

theorem zOps_mod (n : Nat) :
    zOps.psmul (n % zOps.order) zOps.base = zOps.psmul n zOps.base := by
  simp only [zOps, Point.mk.injEq]
  constructor <;> rw [ZMod.natCast_mod]

theorem zOps_onCurve (n : Nat) :
    zOps.isOnCurve (zOps.psmul n zOps.base) = true := rfl

theorem zOps_smul_inj (m n : Nat)
    (h : zOps.psmul m zOps.base = zOps.psmul n zOps.base) :
    m % zOps.order = n % zOps.order := by
  have hx : ((m : ZMod 5)) = (n : ZMod 5) := by
    have := congrArg Point.X h
    simpa [zOps] using this
  exact (ZMod.natCast_eq_natCast_iff m n 5).mp hx

/-! ## The sign-then-verify core lemma -/

/-- For any private key whose stored public point is the scalar multiple
of the base by its stored scalar, a signature produced by `Sign`
verifies, given the group laws the external curve library provides on
multiples of the base point. -/
theorem sign_then_verify
    {F : Type} [DecidableEq F] (C : CurveOps F)
    (blake hFunc : List Nat → List Nat) (message : List Nat)
    (priv : PrivateKey F) (pub : PublicKey F)
    (hpk : priv.pubKey = pub)
    (hA : pub.A = C.psmul (beNat priv.scalar) C.base)
    (hmul : ∀ m n, C.psmul m (C.psmul n C.base) = C.psmul (m * n) C.base)
    (hadd : ∀ m n, C.padd (C.psmul m C.base) (C.psmul n C.base)
      = C.psmul (m + n) C.base)
    (hmod : ∀ n, C.psmul (n % C.order) C.base = C.psmul n C.base)
    (honc : ∀ n, C.isOnCurve (C.psmul n C.base) = true)
    (hordpos : 0 < C.order) (hord : C.order ≤ 256 ^ 32)
    (sig : Signature F)
    (hs : Sign C blake hFunc message priv = Except.ok sig) :
    Verify C hFunc sig message pub = (true, none) := by
  simp only [Sign, honc, if_true, hpk] at hs
  rw [Except.ok.injEq] at hs
  subst hs
  simp only [Verify, hA]
  generalize beNat (List.take 32 (blake (priv.randSrc ++ message))) = r
  generalize beNat priv.scalar = s
  generalize beNat (hFunc (challengeData C (C.psmul r C.base) (C.psmul s C.base) message)) = H
  have hlen : (natToBytesBE ((H * s + r) % C.order)).length ≤ frSize := by
    apply natToBytesBE_length_le_frSize
    calc (H * s + r) % C.order < C.order := Nat.mod_lt _ hordpos
    _ ≤ 256 ^ 32 := hord
  rw [beNat_padTake _ hlen]
  simp only [hmod, hmul, hadd, honc, if_true]
  simp

/-- C1: for every seed and every message, if `(pub, priv) = New(seed)` and
`Sign(message, priv, hashFn)` succeeds with signature `sig`, then
`Verify(sig, message, pub, hashFn)` with the same deterministic hash
function returns `(true, nil)` — given the group laws the external curve
library provides on multiples of the base point. -/
theorem new_sign_verify_ok
    {F : Type} [DecidableEq F] (C : CurveOps F)
    (blake hFunc : List Nat → List Nat) (seed message : List Nat)
    (hmul : ∀ m n, C.psmul m (C.psmul n C.base) = C.psmul (m * n) C.base)
    (hadd : ∀ m n, C.padd (C.psmul m C.base) (C.psmul n C.base)
      = C.psmul (m + n) C.base)
    (hmod : ∀ n, C.psmul (n % C.order) C.base = C.psmul n C.base)
    (honc : ∀ n, C.isOnCurve (C.psmul n C.base) = true)
    (hordpos : 0 < C.order) (hord : C.order ≤ 256 ^ 32)
    (sig : Signature F)
    (hs : Sign C blake hFunc message (New C blake seed).2 = Except.ok sig) :
    Verify C hFunc sig message (New C blake seed).1 = (true, none) :=
  sign_then_verify C blake hFunc message (New C blake seed).2 (New C blake seed).1
    rfl rfl hmul hadd hmod honc hordpos hord sig hs

/-- Witness for C1 at the concrete instance. -/
theorem new_sign_verify_ok_witness :
    Sign zOps zblake zhash [7] (New zOps zblake zseed).2 = Except.ok zsig ∧
    Verify zOps zhash zsig [7] (New zOps zblake zseed).1 = (true, none) := by
  have hs : Sign zOps zblake zhash [7] (New zOps zblake zseed).2
      = Except.ok zsig := by rfl
  exact ⟨hs, new_sign_verify_ok zOps zblake zhash zseed [7]
    zOps_mul zOps_add zOps_mod zOps_onCurve (by decide) (by decide) zsig hs⟩

/-- C2: the claim states that the secret scalar is the byte-order
reversal of the clamped first 32 digest bytes (`scalar[i] =
clamped-digest[31-i]`).  The reversal loop of the source runs with
`j` starting at 32, reversing the 33 bytes `h[0..32]` inclusive, so the
scalar instead gets the UNCLAMPED byte `h[32]` (the first byte of the
digest's second half) as its top byte and drops the clamped byte `h[0]`
entirely.  Evaluated at the digest `0,1,...,63`: the code's scalar
starts with 32 (the unclamped `h[32]`) while the claim's formula starts
with 95 (the clamped `h[31]`). -/
theorem new_scalar_off_by_one :
    (New zOps zblake zseed).2.scalar ≠ specScalar (zblake zseed) ∧
    (New zOps zblake zseed).2.scalar.getD 0 0 = 32 ∧
    (specScalar (zblake zseed)).getD 0 0 = 95 ∧
    (zblake zseed).getD 32 0 = 32 ∧
    (prune (zblake zseed)).getD 0 0 = 0 ∧
    ((New zOps zblake zseed).2.scalar.getD 31 0 = 1 ∧
      (specScalar (zblake zseed)).getD 31 0 = 0) := by
  decide

/-- C8: `New` is deterministic — two runs on the same seed produce
identical public keys, identical stored public keys, identical scalar
bytes and identical `randSrc` bytes. -/
theorem New_deterministic {F : Type} (C : CurveOps F)
    (blake : List Nat → List Nat) (seed1 seed2 : List Nat)
    (h : seed1 = seed2) :
    (New C blake seed1).1 = (New C blake seed2).1 ∧
    (New C blake seed1).2.pubKey = (New C blake seed2).2.pubKey ∧
    (New C blake seed1).2.scalar = (New C blake seed2).2.scalar ∧
    (New C blake seed1).2.randSrc = (New C blake seed2).2.randSrc := by
  subst h
  exact ⟨rfl, rfl, rfl, rfl⟩

/-- Witness for C8 at the concrete instance. -/
theorem New_deterministic_witness :
    zseed = zseed ∧
    (New zOps zblake zseed).1 = (New zOps zblake zseed).1 ∧
    (New zOps zblake zseed).2.pubKey = (New zOps zblake zseed).2.pubKey ∧
    (New zOps zblake zseed).2.scalar = (New zOps zblake zseed).2.scalar ∧
    (New zOps zblake zseed).2.randSrc = (New zOps zblake zseed).2.randSrc :=
  ⟨rfl, New_deterministic zOps zblake zseed zseed rfl⟩

/-- C6: for every structure and every input buffer strictly shorter than
the structure's fixed size (64, 96, 128 bytes), `SetBytes` fails with
`ShortBuffer`, returning count 0 and the untouched receiver. -/
theorem SetBytes_short_buffer {F : Type} (C : CurveOps F)
    (pk : PublicKey F) (sig : Signature F) (priv : PrivateKey F)
    (b1 b2 b3 : List Nat)
    (h1 : b1.length < sizePublicKey)
    (h2 : b2.length < sizeSignature)
    (h3 : b3.length < sizePrivateKey) :
    PublicKey.SetBytes C pk b1 = (pk, 0, some EddsaError.shortBuffer) ∧
    Signature.SetBytes C sig b2 = (sig, 0, some EddsaError.shortBuffer) ∧
    PrivateKey.SetBytes C priv b3 = (priv, 0, some EddsaError.shortBuffer) := by
  refine ⟨?_, ?_, ?_⟩ <;>
    simp [PublicKey.SetBytes, Signature.SetBytes, PrivateKey.SetBytes, h1, h2, h3]

/-- Witness for C6 at the concrete instance, for three truncation
lengths including the empty buffer. -/
theorem SetBytes_short_buffer_witness :
    PublicKey.SetBytes zOps ⟨⟨3, 4⟩⟩ [] = (⟨⟨3, 4⟩⟩, 0, some EddsaError.shortBuffer) ∧
    Signature.SetBytes zOps ⟨⟨3, 4⟩, [9]⟩ (List.replicate 95 0)
      = (⟨⟨3, 4⟩, [9]⟩, 0, some EddsaError.shortBuffer) ∧
    PrivateKey.SetBytes zOps ⟨⟨⟨3, 4⟩⟩, [9], [8]⟩ (List.replicate 127 0)
      = (⟨⟨⟨3, 4⟩⟩, [9], [8]⟩, 0, some EddsaError.shortBuffer) :=
  SetBytes_short_buffer zOps ⟨⟨3, 4⟩⟩ ⟨⟨3, 4⟩, [9]⟩ ⟨⟨⟨3, 4⟩⟩, [9], [8]⟩
    [] (List.replicate 95 0) (List.replicate 127 0)
    (by decide) (by decide) (by decide)

/-- C9: when `SetBytes` returns `ShortBuffer` the receiver is left
completely unchanged; when it returns `NotOnCurve` the receiver's point
coordinates have already been overwritten with the decoded values while
the remaining fields (`S`, `scalar`, `randSrc`) keep their old values. -/
theorem SetBytes_error_atomicity {F : Type} (C : CurveOps F)
    (pk : PublicKey F) (sig : Signature F) (priv : PrivateKey F)
    (b1 b2 b3 : List Nat) :
    (b1.length < sizePublicKey → (PublicKey.SetBytes C pk b1).1 = pk) ∧
    (b2.length < sizeSignature → (Signature.SetBytes C sig b2).1 = sig) ∧
    (b3.length < sizePrivateKey → (PrivateKey.SetBytes C priv b3).1 = priv) ∧
    (¬ b1.length < sizePublicKey →
      C.isOnCurve ⟨C.fromBytes (b1.take frSize), C.fromBytes ((b1.drop frSize).take frSize)⟩ = false →
      PublicKey.SetBytes C pk b1
        = (⟨⟨C.fromBytes (b1.take frSize), C.fromBytes ((b1.drop frSize).take frSize)⟩⟩,
            2 * frSize, some EddsaError.notOnCurve)) ∧
    (¬ b2.length < sizeSignature →
      C.isOnCurve ⟨C.fromBytes (b2.take frSize), C.fromBytes ((b2.drop frSize).take frSize)⟩ = false →
      Signature.SetBytes C sig b2
        = ({ sig with R := ⟨C.fromBytes (b2.take frSize), C.fromBytes ((b2.drop frSize).take frSize)⟩ },
            2 * frSize, some EddsaError.notOnCurve)) ∧
    (¬ b3.length < sizePrivateKey →
      C.isOnCurve ⟨C.fromBytes (b3.take frSize), C.fromBytes ((b3.drop frSize).take frSize)⟩ = false →
      PrivateKey.SetBytes C priv b3
        = ({ priv with pubKey := ⟨⟨C.fromBytes (b3.take frSize), C.fromBytes ((b3.drop frSize).take frSize)⟩⟩ },
            2 * frSize, some EddsaError.notOnCurve)) := by
  refine ⟨?_, ?_, ?_, ?_, ?_, ?_⟩ <;> intro h <;>
    simp_all [PublicKey.SetBytes, Signature.SetBytes, PrivateKey.SetBytes]

/-- Witness for C9: under the rejecting on-curve predicate `wOps`, a
full-size all-zero buffer overwrites the point but preserves the other
fields, while a short buffer leaves everything untouched. -/
theorem SetBytes_error_atomicity_witness :
    (PublicKey.SetBytes wOps ⟨⟨3, 4⟩⟩ []).1 = ⟨⟨3, 4⟩⟩ ∧
    Signature.SetBytes wOps ⟨⟨3, 4⟩, [9]⟩ (List.replicate 96 0)
      = (⟨⟨0, 0⟩, [9]⟩, 64, some EddsaError.notOnCurve) ∧
    PrivateKey.SetBytes wOps ⟨⟨⟨3, 4⟩⟩, [9], [8]⟩ (List.replicate 128 0)
      = (⟨⟨⟨0, 0⟩⟩, [9], [8]⟩, 64, some EddsaError.notOnCurve) :=
  ⟨(SetBytes_error_atomicity wOps ⟨⟨3, 4⟩⟩ ⟨⟨3, 4⟩, [9]⟩ ⟨⟨⟨3, 4⟩⟩, [9], [8]⟩
      [] (List.replicate 96 0) (List.replicate 128 0)).1 (by decide),
   (SetBytes_error_atomicity wOps ⟨⟨3, 4⟩⟩ ⟨⟨3, 4⟩, [9]⟩ ⟨⟨⟨3, 4⟩⟩, [9], [8]⟩
      [] (List.replicate 96 0) (List.replicate 128 0)).2.2.2.2.1 (by decide) (by decide),
   (SetBytes_error_atomicity wOps ⟨⟨3, 4⟩⟩ ⟨⟨3, 4⟩, [9]⟩ ⟨⟨⟨3, 4⟩⟩, [9], [8]⟩
      [] (List.replicate 96 0) (List.replicate 128 0)).2.2.2.2.2 (by decide) (by decide)⟩

/-- C10: on success `PrivateKey.SetBytes` returns a bytes-consumed count
of `3 * frSize = 96` even though it reads `4 * frSize = 128` bytes (the
decoded `randSrc` is the slice `buf[96..128]`), while `PublicKey` and
`Signature` return their structures' full fixed sizes 64 and 96. -/
theorem SetBytes_counts {F : Type} (C : CurveOps F)
    (pk : PublicKey F) (sig : Signature F) (priv : PrivateKey F)
    (b1 b2 b3 : List Nat)
    (h1 : ¬ b1.length < sizePublicKey)
    (hc1 : C.isOnCurve ⟨C.fromBytes (b1.take frSize), C.fromBytes ((b1.drop frSize).take frSize)⟩ = true)
    (h2 : ¬ b2.length < sizeSignature)
    (hc2 : C.isOnCurve ⟨C.fromBytes (b2.take frSize), C.fromBytes ((b2.drop frSize).take frSize)⟩ = true)
    (h3 : ¬ b3.length < sizePrivateKey)
    (hc3 : C.isOnCurve ⟨C.fromBytes (b3.take frSize), C.fromBytes ((b3.drop frSize).take frSize)⟩ = true) :
    (PrivateKey.SetBytes C priv b3).2.1 = 96 ∧
    (PrivateKey.SetBytes C priv b3).2.2 = none ∧
    (PrivateKey.SetBytes C priv b3).1.randSrc = (b3.drop 96).take 32 ∧
    sizePrivateKey = 128 ∧
    (PublicKey.SetBytes C pk b1).2.1 = 64 ∧ sizePublicKey = 64 ∧
    (Signature.SetBytes C sig b2).2.1 = 96 ∧ sizeSignature = 96 := by
  have hn1 : ¬ b1.length < 64 := by simpa [sizePublicKey, frSize] using h1
  have hn2 : ¬ b2.length < 96 := by simpa [sizeSignature, frSize] using h2
  have hn3 : ¬ b3.length < 128 := by simpa [sizePrivateKey, frSize] using h3
  have hd1 := hc1
  have hd2 := hc2
  have hd3 := hc3
  simp only [frSize] at hd1 hd2 hd3
  refine ⟨?_, ?_, ?_, by decide, ?_, by decide, ?_, by decide⟩ <;>
    simp [PublicKey.SetBytes, Signature.SetBytes, PrivateKey.SetBytes,
      frSize, sizePublicKey, sizeSignature, sizePrivateKey, hn1, hn2, hn3, hd1, hd2, hd3]

/-- Witness for C10 at the concrete instance. -/
theorem SetBytes_counts_witness :
    (PrivateKey.SetBytes zOps ⟨⟨⟨3, 4⟩⟩, [9], [8]⟩ (List.range 128)).2.1 = 96 ∧
    (PrivateKey.SetBytes zOps ⟨⟨⟨3, 4⟩⟩, [9], [8]⟩ (List.range 128)).1.randSrc
      = ((List.range 128).drop 96).take 32 ∧
    (PublicKey.SetBytes zOps ⟨⟨3, 4⟩⟩ (List.range 64)).2.1 = 64 ∧
    (Signature.SetBytes zOps ⟨⟨3, 4⟩, [9]⟩ (List.range 96)).2.1 = 96 :=
  ⟨(SetBytes_counts zOps ⟨⟨3, 4⟩⟩ ⟨⟨3, 4⟩, [9]⟩ ⟨⟨⟨3, 4⟩⟩, [9], [8]⟩
      (List.range 64) (List.range 96) (List.range 128)
      (by decide) rfl (by decide) rfl (by decide) rfl).1,
   (SetBytes_counts zOps ⟨⟨3, 4⟩⟩ ⟨⟨3, 4⟩, [9]⟩ ⟨⟨⟨3, 4⟩⟩, [9], [8]⟩
      (List.range 64) (List.range 96) (List.range 128)
      (by decide) rfl (by decide) rfl (by decide) rfl).2.2.1,
   (SetBytes_counts zOps ⟨⟨3, 4⟩⟩ ⟨⟨3, 4⟩, [9]⟩ ⟨⟨⟨3, 4⟩⟩, [9], [8]⟩
      (List.range 64) (List.range 96) (List.range 128)
      (by decide) rfl (by decide) rfl (by decide) rfl).2.2.2.2.1,
   (SetBytes_counts zOps ⟨⟨3, 4⟩⟩ ⟨⟨3, 4⟩, [9]⟩ ⟨⟨⟨3, 4⟩⟩, [9], [8]⟩
      (List.range 64) (List.range 96) (List.range 128)
      (by decide) rfl (by decide) rfl (by decide) rfl).2.2.2.2.2.2.1⟩

/-- C4: in `Sign`, the response `S` is `(r + H * scalar) mod GroupOrder`
computed with exact integer arithmetic, and its big-endian encoding is
left-padded with zero bytes to exactly `frSize` bytes when shorter. -/
theorem Sign_response_scalar {F : Type} (C : CurveOps F)
    (blake hFunc : List Nat -> List Nat) (message : List Nat)
    (priv : PrivateKey F)
    (hordpos : 0 < C.order) (hord : C.order <= 256 ^ 32)
    (sig : Signature F)
    (hs : Sign C blake hFunc message priv = Except.ok sig) :
    sig.S =
      List.replicate
        (frSize - (natToBytesBE ((beNat ((blake (priv.randSrc ++ message)).take 32)
          + beNat (hFunc (challengeData C sig.R priv.pubKey.A message)) * beNat priv.scalar)
          % C.order)).length) 0
      ++ natToBytesBE ((beNat ((blake (priv.randSrc ++ message)).take 32)
          + beNat (hFunc (challengeData C sig.R priv.pubKey.A message)) * beNat priv.scalar)
          % C.order) := by
  simp only [Sign] at hs
  split at hs
  case isTrue =>
    rw [Except.ok.injEq] at hs
    subst hs
    simp only
    generalize beNat (List.take 32 (blake (priv.randSrc ++ message))) = r
    generalize beNat priv.scalar = s
    generalize beNat (hFunc (challengeData C (C.psmul r C.base) priv.pubKey.A message)) = H
    rw [Nat.add_comm r (H * s)]
    have hlen : (natToBytesBE ((H * s + r) % C.order)).length <= frSize := by
      apply natToBytesBE_length_le_frSize
      calc (H * s + r) % C.order < C.order := Nat.mod_lt _ hordpos
      _ <= 256 ^ 32 := hord
    exact padTake_eq _ hlen
  case isFalse =>
    exact absurd hs (by simp)

/-- Witness for C4 at the concrete instance. -/
theorem Sign_response_scalar_witness :
    Sign zOps zblake zhash [1] (New zOps zblake zseed).2 = Except.ok zsig /\
    zsig.S =
      List.replicate
        (frSize - (natToBytesBE ((beNat ((zblake ((New zOps zblake zseed).2.randSrc ++ [1])).take 32)
          + beNat (zhash (challengeData zOps zsig.R (New zOps zblake zseed).2.pubKey.A [1]))
            * beNat (New zOps zblake zseed).2.scalar)
          % zOps.order)).length) 0
      ++ natToBytesBE ((beNat ((zblake ((New zOps zblake zseed).2.randSrc ++ [1])).take 32)
          + beNat (zhash (challengeData zOps zsig.R (New zOps zblake zseed).2.pubKey.A [1]))
            * beNat (New zOps zblake zseed).2.scalar)
          % zOps.order) :=
  ⟨by rfl, Sign_response_scalar zOps zblake zhash [1] (New zOps zblake zseed).2
    (by decide) (by decide) zsig (by rfl)⟩

/-- C3: for a public key on the curve (and computed sides passing the
defensive on-curve checks), `Verify` returns true exactly when
`cofactor*(S*Base)` and `cofactor*(H*A + R)` agree in both coordinates,
and returns `(false, nil)` - a boolean result, not an error - when they
differ. -/
theorem Verify_cofactor_equation {F : Type} [DecidableEq F] (C : CurveOps F)
    (hFunc : List Nat -> List Nat) (sig : Signature F) (message : List Nat)
    (pub : PublicKey F)
    (h1 : C.isOnCurve pub.A = true)
    (h2 : C.isOnCurve (verifyLhs C sig) = true)
    (h3 : C.isOnCurve (verifyRhs C hFunc sig message pub) = true) :
    (Verify C hFunc sig message pub = (true, none) ↔
      ((verifyLhs C sig).X = (verifyRhs C hFunc sig message pub).X ∧
       (verifyLhs C sig).Y = (verifyRhs C hFunc sig message pub).Y)) ∧
    (¬ ((verifyLhs C sig).X = (verifyRhs C hFunc sig message pub).X ∧
        (verifyLhs C sig).Y = (verifyRhs C hFunc sig message pub).Y) →
      Verify C hFunc sig message pub = (false, none)) := by
  simp only [verifyLhs, verifyRhs] at h2 h3 ⊢
  simp only [Verify, h1, h2, h3, if_true]
  constructor
  · by_cases hc : (C.psmul C.cofactor (C.psmul (beNat sig.S) C.base)).X =
        (C.psmul C.cofactor (C.padd (C.psmul (beNat (hFunc (challengeData C sig.R pub.A message))) pub.A) sig.R)).X ∧
      (C.psmul C.cofactor (C.psmul (beNat sig.S) C.base)).Y =
        (C.psmul C.cofactor (C.padd (C.psmul (beNat (hFunc (challengeData C sig.R pub.A message))) pub.A) sig.R)).Y
    · simp [hc]
    · simp [hc]
  · intro hc
    simp [hc]

/-- Witness for C3 at the concrete instance. -/
theorem Verify_cofactor_equation_witness :
    zOps.isOnCurve (PublicKey.mk (Point.mk 2 0)).A = true ∧
    (Verify zOps zhash zsig [3] ⟨⟨2, 0⟩⟩ = (true, none) ↔
      ((verifyLhs zOps zsig).X = (verifyRhs zOps zhash zsig [3] ⟨⟨2, 0⟩⟩).X ∧
       (verifyLhs zOps zsig).Y = (verifyRhs zOps zhash zsig [3] ⟨⟨2, 0⟩⟩).Y)) :=
  ⟨rfl, (Verify_cofactor_equation zOps zhash zsig [3] ⟨⟨2, 0⟩⟩ rfl rfl rfl).1⟩

theorem take_block (l1 l2 : List Nat) (k : Nat) (h : l1.length = k) :
    (l1 ++ l2).take k = l1 := by
  subst h
  exact List.take_left l1 l2

theorem drop_block (l1 l2 : List Nat) (k : Nat) (h : l1.length = k) :
    (l1 ++ l2).drop k = l2 := by
  subst h
  exact List.drop_left l1 l2

theorem drop_block2 (l1 l2 l3 : List Nat)
    (h1 : l1.length = frSize) (h2 : l2.length = frSize) :
    (l1 ++ (l2 ++ l3)).drop (2 * frSize) = l3 := by
  have h : (2 * frSize) = frSize + frSize := by norm_num [frSize]
  rw [h, ← List.drop_drop, drop_block _ _ _ h1, drop_block _ _ _ h2]

theorem drop_block3 (l1 l2 l3 l4 : List Nat)
    (h1 : l1.length = frSize) (h2 : l2.length = frSize) (h3 : l3.length = frSize) :
    (l1 ++ (l2 ++ (l3 ++ l4))).drop (3 * frSize) = l4 := by
  have h : (3 * frSize) = frSize + (frSize + frSize) := by norm_num [frSize]
  rw [h, ← List.drop_drop, drop_block _ _ _ h1, ← List.drop_drop,
    drop_block _ _ _ h2, drop_block _ _ _ h3]

/-- C5: decoding the fixed-width encoding of any protocol value yields a
value equal field-for-field to the original, for all three structures,
whatever the initial state of the receiver. -/
theorem encode_decode_roundtrip {F : Type} (C : CurveOps F)
    (hcodec : forall x : F, C.fromBytes (C.toBytes x) = x)
    (hlen : forall x : F, (C.toBytes x).length = frSize)
    (pk pk0 : PublicKey F) (sig sig0 : Signature F)
    (priv priv0 : PrivateKey F)
    (hpc : C.isOnCurve pk.A = true)
    (hsc : C.isOnCurve sig.R = true) (hsl : sig.S.length = frSize)
    (hvc : C.isOnCurve priv.pubKey.A = true)
    (hvs : priv.scalar.length = frSize) (hvr : priv.randSrc.length = frSize) :
    PublicKey.SetBytes C pk0 (PublicKey.Bytes C pk) = (pk, 2 * frSize, none) ∧
    Signature.SetBytes C sig0 (Signature.Bytes C sig) = (sig, 3 * frSize, none) ∧
    PrivateKey.SetBytes C priv0 (PrivateKey.Bytes C priv) = (priv, 3 * frSize, none) := by
  refine ⟨?_, ?_, ?_⟩
  · simp only [PublicKey.SetBytes, PublicKey.Bytes]
    rw [if_neg (by simp only [List.length_append, hlen, sizePublicKey, frSize]; omega)]
    rw [take_block _ _ frSize (hlen _), drop_block _ _ frSize (hlen _),
      List.take_of_length_le (le_of_eq (hlen _)), hcodec, hcodec]
    simp [hpc]
  · simp only [Signature.SetBytes, Signature.Bytes, List.append_assoc]
    rw [if_neg (by simp only [List.length_append, hlen, hsl, sizeSignature, frSize]; omega)]
    rw [take_block _ _ frSize (hlen _), drop_block _ _ frSize (hlen _),
      take_block _ _ frSize (hlen _), hcodec, hcodec,
      drop_block2 _ _ _ (hlen _) (hlen _),
      List.take_of_length_le (le_of_eq hsl)]
    simp [hsc]
  · simp only [PrivateKey.SetBytes, PrivateKey.Bytes, List.append_assoc]
    rw [if_neg (by simp only [List.length_append, hlen, hvs, hvr, sizePrivateKey, frSize]; omega)]
    rw [take_block _ _ frSize (hlen _), drop_block _ _ frSize (hlen _),
      take_block _ _ frSize (hlen _), hcodec, hcodec,
      drop_block2 _ _ _ (hlen _) (hlen _),
      take_block _ _ frSize hvs,
      drop_block3 _ _ _ _ (hlen _) (hlen _) hvs,
      List.take_of_length_le (le_of_eq hvr)]
    simp [hvc]

/-- Witness for C5 at the concrete instance. -/
theorem encode_decode_roundtrip_witness :
    PublicKey.SetBytes zOps ⟨⟨0, 0⟩⟩ (PublicKey.Bytes zOps ⟨⟨2, 3⟩⟩)
      = (⟨⟨2, 3⟩⟩, 2 * frSize, none) ∧
    Signature.SetBytes zOps ⟨⟨0, 0⟩, []⟩
        (Signature.Bytes zOps ⟨⟨1, 4⟩, List.replicate 32 7⟩)
      = (⟨⟨1, 4⟩, List.replicate 32 7⟩, 3 * frSize, none) ∧
    PrivateKey.SetBytes zOps ⟨⟨⟨0, 0⟩⟩, [], []⟩
        (PrivateKey.Bytes zOps ⟨⟨⟨2, 3⟩⟩, List.replicate 32 1, List.replicate 32 2⟩)
      = (⟨⟨⟨2, 3⟩⟩, List.replicate 32 1, List.replicate 32 2⟩, 3 * frSize, none) :=
  encode_decode_roundtrip zOps (by decide) (by decide)
    ⟨⟨2, 3⟩⟩ ⟨⟨0, 0⟩⟩ ⟨⟨1, 4⟩, List.replicate 32 7⟩ ⟨⟨0, 0⟩, []⟩
    ⟨⟨⟨2, 3⟩⟩, List.replicate 32 1, List.replicate 32 2⟩ ⟨⟨⟨0, 0⟩⟩, [], []⟩
    rfl rfl (by decide) rfl (by decide) (by decide)

/-- Core negative lemma: a signature on `m1` fails to verify against
`m2` whenever the cofactor-scaled responses for the two challenge
integers fall in different residue classes modulo the order. -/
theorem verify_wrong_core
    {F : Type} [DecidableEq F] (C : CurveOps F)
    (blake hFunc : List Nat → List Nat) (m1 m2 : List Nat)
    (priv : PrivateKey F) (pub : PublicKey F)
    (hpk : priv.pubKey = pub)
    (hA : pub.A = C.psmul (beNat priv.scalar) C.base)
    (hmul : ∀ m n, C.psmul m (C.psmul n C.base) = C.psmul (m * n) C.base)
    (hadd : ∀ m n, C.padd (C.psmul m C.base) (C.psmul n C.base)
      = C.psmul (m + n) C.base)
    (hmod : ∀ n, C.psmul (n % C.order) C.base = C.psmul n C.base)
    (honc : ∀ n, C.isOnCurve (C.psmul n C.base) = true)
    (hordpos : 0 < C.order) (hord : C.order ≤ 256 ^ 32)
    (hinj : ∀ m n, C.psmul m C.base = C.psmul n C.base → m % C.order = n % C.order)
    (sig : Signature F)
    (hs : Sign C blake hFunc m1 priv = Except.ok sig)
    (hne : (C.cofactor * (beNat (hFunc (challengeData C sig.R pub.A m1)) * beNat priv.scalar
              + beNat ((blake (priv.randSrc ++ m1)).take 32))) % C.order
         ≠ (C.cofactor * (beNat (hFunc (challengeData C sig.R pub.A m2)) * beNat priv.scalar
              + beNat ((blake (priv.randSrc ++ m1)).take 32))) % C.order) :
    Verify C hFunc sig m2 pub = (false, none) := by
  simp only [Sign, honc, if_true, hpk] at hs
  rw [Except.ok.injEq] at hs
  subst hs
  simp only [Verify]
  simp only [hA] at hne ⊢
  set r := beNat (List.take 32 (blake (priv.randSrc ++ m1))) with hrdef
  set s := beNat priv.scalar with hsdef
  set H1 := beNat (hFunc (challengeData C (C.psmul r C.base) (C.psmul s C.base) m1)) with hH1
  set H2 := beNat (hFunc (challengeData C (C.psmul r C.base) (C.psmul s C.base) m2)) with hH2
  have hlen : (natToBytesBE ((H1 * s + r) % C.order)).length ≤ frSize := by
    apply natToBytesBE_length_le_frSize
    calc (H1 * s + r) % C.order < C.order := Nat.mod_lt _ hordpos
    _ ≤ 256 ^ 32 := hord
  rw [beNat_padTake _ hlen]
  simp only [hmod, hmul, hadd, honc, if_true]
  rw [if_neg]
  · intro hxy
    have hpt : C.psmul (C.cofactor * (H1 * s + r)) C.base
        = C.psmul (C.cofactor * (H2 * s + r)) C.base := Point.ext hxy.1 hxy.2
    exact hne (hinj _ _ hpt)

/-- C7 (amended): for a key pair derived by `New`, distinct messages
`m1 ≠ m2` yield a failed verification `(false, nil)` PROVIDED the
cofactor-scaled responses for the two challenge integers fall in
different residue classes modulo the group order (with a degenerate
pluggable hash the challenges can coincide and verification succeeds, so
the unconditional claim is false). -/
theorem new_sign_verify_wrong_message
    {F : Type} [DecidableEq F] (C : CurveOps F)
    (blake hFunc : List Nat → List Nat) (seed m1 m2 : List Nat)
    (hm : m1 ≠ m2)
    (hmul : ∀ m n, C.psmul m (C.psmul n C.base) = C.psmul (m * n) C.base)
    (hadd : ∀ m n, C.padd (C.psmul m C.base) (C.psmul n C.base)
      = C.psmul (m + n) C.base)
    (hmod : ∀ n, C.psmul (n % C.order) C.base = C.psmul n C.base)
    (honc : ∀ n, C.isOnCurve (C.psmul n C.base) = true)
    (hordpos : 0 < C.order) (hord : C.order ≤ 256 ^ 32)
    (hinj : ∀ m n, C.psmul m C.base = C.psmul n C.base → m % C.order = n % C.order)
    (sig : Signature F)
    (hs : Sign C blake hFunc m1 (New C blake seed).2 = Except.ok sig)
    (hne : (C.cofactor * (beNat (hFunc (challengeData C sig.R (New C blake seed).1.A m1))
                * beNat (New C blake seed).2.scalar
              + beNat ((blake ((New C blake seed).2.randSrc ++ m1)).take 32))) % C.order
         ≠ (C.cofactor * (beNat (hFunc (challengeData C sig.R (New C blake seed).1.A m2))
                * beNat (New C blake seed).2.scalar
              + beNat ((blake ((New C blake seed).2.randSrc ++ m1)).take 32))) % C.order) :
    Verify C hFunc sig m2 (New C blake seed).1 = (false, none) :=
  verify_wrong_core C blake hFunc m1 m2 (New C blake seed).2 (New C blake seed).1
    rfl rfl hmul hadd hmod honc hordpos hord hinj sig hs hne

/-- Counterexample to C7 as stated: with a (degenerate) pluggable hash
whose digest depends only on the input length, the signature on `[0]`
verifies successfully against the distinct message `[1]`. -/
theorem new_sign_verify_wrong_message_cex :
    ([0] : List Nat) ≠ [1] ∧
    Sign zOps zblake zhash [0] (New zOps zblake zseed).2 = Except.ok zsig ∧
    Verify zOps zhash zsig [1] (New zOps zblake zseed).1 = (true, none) :=
  ⟨by decide, by rfl, by rfl⟩

/-- Witness for the amended C7 at the concrete instance: the messages
`[7]` and `[8, 9]` produce distinct challenge residues and verification
rejects. -/
theorem new_sign_verify_wrong_message_witness :
    ([7] : List Nat) ≠ [8, 9] ∧
    Verify zOps zhash zsig [8, 9] (New zOps zblake zseed).1 = (false, none) :=
  ⟨by decide, new_sign_verify_wrong_message zOps zblake zhash zseed [7] [8, 9]
    (by decide) zOps_mul zOps_add zOps_mod zOps_onCurve (by decide) (by decide)
    zOps_smul_inj zsig (by rfl) (by decide)⟩

end Eddsa
